import Mathlib

/-!
Shallow embedding of the CHIP-8 emulator core
(src/InstructionSet.h, src/InstructionSet.c, src/CHIP8Emulator.c).

Modelling conventions:
* Machine integers are `Nat` with explicit truncation (`% 256` for `u_int8_t`
  stores that can exceed a byte, `% 65536` for `u_int16_t` stores that can
  exceed 16 bits).  Stores of values that are already byte-sized in C
  (e.g. copying one `u_int8_t` register into another) are kept as-is.
* The byte arrays `RAM`, `v`, `keys` and `screen` are total functions
  `Nat → Nat`; this lets the embedding express the C program's unchecked
  (out-of-range) array accesses directly: an access at index `n ≥` the array
  size simply touches the function at `n`.
* The C stack pointer `sp` is an `address*` into `RAM`; pointer values are
  modelled as byte offsets from the start of `RAM` (so `STACK_LOW = 0xEBE`
  is both the C macro and the initial offset), and the 16-bit stack slots
  written through the pointer live in a separate field `stackMem`, keyed by
  the same byte offsets (pointer increments/decrements move by 2 bytes).
  The bound checks in the C `push`/`pop` compare `sp` against the literal
  casts `(address*) STACK_UP` / `(address*) STACK_LOW`, i.e. against the
  absolute machine addresses 0xEA0 / 0xEBE — not against `&RAM[STACK_UP]` /
  `&RAM[STACK_LOW]` as the surrounding code (`initialize`, `print_stack`)
  and the header contract intend.  `push`/`pop` below model the intended
  RAM-relative comparison; `pushAbs` additionally models the comparison as
  literally written, with the numeric value of `sp` being `base + offset`
  for the load address `base` of `RAM`, to show the literal check is dead
  for every realistic `base`.
* `exit(EXIT_FAILURE)` paths are modelled as `Except.error` with a `Fault`
  naming the C diagnostic ("Stack overflow", "Empty stack",
  "Unknown instruction").
* `rand()` is modelled by an oracle stream `randSeq` consumed at `randIdx`.
-/

namespace Chip8Emu

/-! ### Constants (InstructionSet.h) -/

def STACK_UP : Nat := 0xEA0
def STACK_LOW : Nat := 0xEBE
def SIZE_MEM : Nat := 4096
def SIZE_FS : Nat := 80
def NUM_REGS : Nat := 16
def NUM_KEYS : Nat := 16
def WIDTH : Nat := 64
def HEIGHT : Nat := 32

/-! ### Field-extraction macros (InstructionSet.h) -/

/-- `INSTR(pc, pc_next) ((pc) << 8 | (pc_next))` -/
def INSTR (hi lo : Nat) : Nat := hi <<< 8 ||| lo

/-- `VX(instr) (((instr) & 0xF00) >> 8)` -/
def VX (i : Nat) : Nat := (i &&& 0xF00) >>> 8

/-- `VY(instr) (((instr) & 0xF0) >> 4)` -/
def VY (i : Nat) : Nat := (i &&& 0xF0) >>> 4

/-- `ADDR(instr) ((instr) & 0xFFF)` -/
def ADDR (i : Nat) : Nat := i &&& 0xFFF

/-- `BYTE(instr) ((instr) & 0xFF)` -/
def BYTE (i : Nat) : Nat := i &&& 0xFF

/-- `LSN(instr) ((instr) & 0xF)` -/
def LSN (i : Nat) : Nat := i &&& 0xF

/-- `MSN(instr) (((instr) & 0xF000) >> 12)` -/
def MSN (i : Nat) : Nat := (i &&& 0xF000) >>> 12

/-- `MSBR(v) ((v) >> 7)` -/
def MSBR (x : Nat) : Nat := x >>> 7

/-- `LSBI(v) ((v) & 0x1)` -/
def LSBI (x : Nat) : Nat := x &&& 0x1

/-- Truncation of a store into a `u_int8_t`. -/
def wrap8 (n : Nat) : Nat := n % 256

/-- Truncation of a store into a `u_int16_t`. -/
def wrap16 (n : Nat) : Nat := n % 65536

/-- Pointwise array update. -/
def upd (f : Nat → Nat) (k x : Nat) : Nat → Nat := fun n => if n = k then x else f n

/-! ### Machine state (globals of InstructionSet.h / CHIP8Emulator.h) -/

structure Chip8 where
  RAM : Nat → Nat
  PC : Nat
  I : Nat
  v : Nat → Nat
  sp : Nat
  stackMem : Nat → Nat
  keys : Nat → Nat
  screen : Nat → Nat
  delay_timer : Nat
  sound_timer : Nat
  draw : Nat
  randSeq : Nat → Nat
  randIdx : Nat

/-- The fatal `printf` + `exit(EXIT_FAILURE)` paths of the emulator. -/
inductive Fault where
  | StackOverflow
  | StackUnderflow
  | UnknownInstruction
deriving DecidableEq, Repr

/-! ### Stack (InstructionSet.c, `push` / `pop`) -/

/-- `push`: fail if `sp < (address*)STACK_UP`, else `*(sp--) = addr`
(a 2-byte slot is written at the current offset, then `sp` moves down 2). -/
def push (addr : Nat) (s : Chip8) : Except Fault Chip8 :=
  if s.sp < STACK_UP then .error .StackOverflow
  else .ok { s with stackMem := upd s.stackMem s.sp addr, sp := s.sp - 2 }

/-- `pop`: fail if `sp == (address*)STACK_LOW`, else `return *(++sp)`
(`sp` moves up 2 first, then the slot there is read). -/
def pop (s : Chip8) : Except Fault (Nat × Chip8) :=
  if s.sp = STACK_LOW then .error .StackUnderflow
  else .ok (s.stackMem (s.sp + 2), { s with sp := s.sp + 2 })

/-! ### Instructions (InstructionSet.c) -/

/-- `CLS`: `memset(screen, 0, WIDTH * HEIGHT)` (only the 2048 screen bytes). -/
def CLS (s : Chip8) : Chip8 :=
  { s with screen := fun n => if n < WIDTH * HEIGHT then 0 else s.screen n }

/-- `RET`: `PC = pop() + 2`. -/
def RET (s : Chip8) : Except Fault Chip8 :=
  match pop s with
  | .error e => .error e
  | .ok (a, s1) => .ok { s1 with PC := wrap16 (a + 2) }

/-- `JP`: `PC = ADDR(i)`. -/
def JP (i : Nat) (s : Chip8) : Chip8 :=
  { s with PC := ADDR i }

/-- `CALL`: `push(PC - 2); PC = ADDR(i)` (`PC - 2` is 16-bit arithmetic). -/
def CALL (i : Nat) (s : Chip8) : Except Fault Chip8 :=
  match push (wrap16 (s.PC + 65534)) s with
  | .error e => .error e
  | .ok s1 => .ok { s1 with PC := ADDR i }

/-- `SE`: skip next instruction if `v[VX(i)] == BYTE(i)`. -/
def SE (i : Nat) (s : Chip8) : Chip8 :=
  if s.v (VX i) = BYTE i then { s with PC := wrap16 (s.PC + 2) } else s

/-- `SNEI`: skip next instruction if `v[VX(i)] != BYTE(i)`. -/
def SNEI (i : Nat) (s : Chip8) : Chip8 :=
  if s.v (VX i) ≠ BYTE i then { s with PC := wrap16 (s.PC + 2) } else s

/-- `SR`: skip next instruction if `v[VX(i)] == v[VY(i)]`. -/
def SR (i : Nat) (s : Chip8) : Chip8 :=
  if s.v (VX i) = s.v (VY i) then { s with PC := wrap16 (s.PC + 2) } else s

/-- `LDB`: `v[VX(i)] = BYTE(i)`. -/
def LDB (i : Nat) (s : Chip8) : Chip8 :=
  { s with v := upd s.v (VX i) (BYTE i) }

/-- `ADDI`: `v[VX(i)] += BYTE(i)` (byte store truncates). -/
def ADDI (i : Nat) (s : Chip8) : Chip8 :=
  { s with v := upd s.v (VX i) (wrap8 (s.v (VX i) + BYTE i)) }

/-- `LDR`: `v[VX(i)] = v[VY(i)]`. -/
def LDR (i : Nat) (s : Chip8) : Chip8 :=
  { s with v := upd s.v (VX i) (s.v (VY i)) }

/-- `OR`: `v[VX(i)] |= v[VY(i)]`. -/
def OR (i : Nat) (s : Chip8) : Chip8 :=
  { s with v := upd s.v (VX i) (s.v (VX i) ||| s.v (VY i)) }

/-- `AND`: `v[VX(i)] &= v[VY(i)]`. -/
def AND (i : Nat) (s : Chip8) : Chip8 :=
  { s with v := upd s.v (VX i) (s.v (VX i) &&& s.v (VY i)) }

/-- `XOR`: `v[VX(i)] ^= v[VY(i)]`. -/
def XOR (i : Nat) (s : Chip8) : Chip8 :=
  { s with v := upd s.v (VX i) (s.v (VX i) ^^^ s.v (VY i)) }

/-- `ADD`: `v[0xF] = v[VX(i)] > 0xFF - v[VY(i)] ? 1 : 0;` (flag written first)
then `v[VX(i)] += v[VY(i)]` on the updated register file. -/
def ADD (i : Nat) (s : Chip8) : Chip8 :=
  let s1 := { s with v := upd s.v 0xF (if s.v (VX i) > 0xFF - s.v (VY i) then 1 else 0) }
  { s1 with v := upd s1.v (VX i) (wrap8 (s1.v (VX i) + s1.v (VY i))) }

/-- `SUB`: `v[0xF] = v[VY(i)] > v[VX(i)] ? 0 : 1;` then `v[VX(i)] -= v[VY(i)]`
(byte subtraction of byte-valued registers). -/
def SUB (i : Nat) (s : Chip8) : Chip8 :=
  let s1 := { s with v := upd s.v 0xF (if s.v (VY i) > s.v (VX i) then 0 else 1) }
  { s1 with v := upd s1.v (VX i) (wrap8 (s1.v (VX i) + 256 - s1.v (VY i))) }

/-- `SHR`: `v[0xF] = LSBI(v[VX(i)]);` then `v[VX(i)] >>= 1`. -/
def SHR (i : Nat) (s : Chip8) : Chip8 :=
  let s1 := { s with v := upd s.v 0xF (LSBI (s.v (VX i))) }
  { s1 with v := upd s1.v (VX i) (s1.v (VX i) >>> 1) }

/-- `SUBN`: `v[0xF] = v[VX(i)] > v[VY(i)] ? 0 : 1;` then `v[VX(i)] = v[VY(i)] - v[VX(i)]`. -/
def SUBN (i : Nat) (s : Chip8) : Chip8 :=
  let s1 := { s with v := upd s.v 0xF (if s.v (VX i) > s.v (VY i) then 0 else 1) }
  { s1 with v := upd s1.v (VX i) (wrap8 (s1.v (VY i) + 256 - s1.v (VX i))) }

/-- `SHL`: `v[0xF] = MSBR(v[VX(i)]);` then `v[VX(i)] <<= 1` (byte store truncates). -/
def SHL (i : Nat) (s : Chip8) : Chip8 :=
  let s1 := { s with v := upd s.v 0xF (MSBR (s.v (VX i))) }
  { s1 with v := upd s1.v (VX i) (wrap8 (s1.v (VX i) <<< 1)) }

/-- `SNE`: skip next instruction if `v[VX(i)] != v[VY(i)]`. -/
def SNE (i : Nat) (s : Chip8) : Chip8 :=
  if s.v (VX i) ≠ s.v (VY i) then { s with PC := wrap16 (s.PC + 2) } else s

/-- `LDI`: `I = ADDR(i)`. -/
def LDI (i : Nat) (s : Chip8) : Chip8 :=
  { s with I := ADDR i }

/-- `JPR`: `PC = ADDR(i) + v[0x0]` (16-bit store). -/
def JPR (i : Nat) (s : Chip8) : Chip8 :=
  { s with PC := wrap16 (ADDR i + s.v 0x0) }

/-- `RND`: `v[VX(i)] = (rand() % 256) & BYTE(i)` (`rand` modelled by the oracle stream). -/
def RND (i : Nat) (s : Chip8) : Chip8 :=
  { s with v := upd s.v (VX i) (s.randSeq s.randIdx % 256 &&& BYTE i),
           randIdx := s.randIdx + 1 }

/-- Body of the inner `x` loop of `DRW`: if bit `x` of the sprite row `p` is
set, record a collision when `screen[x + Vx + yOff * WIDTH]` is on, then
toggle that pixel (`screen[...] ^= 1`).  The linear index is exactly the C
expression — no wrapping. -/
def drwStep (Vx yOff p : Nat) (s : Chip8) (x : Nat) : Chip8 :=
  if p &&& (0x80 >>> x) ≠ 0 then
    let idx := x + Vx + yOff * WIDTH
    let s1 := if s.screen idx ≠ 0 then { s with v := upd s.v 0xF 1 } else s
    { s1 with screen := upd s1.screen idx (wrap8 (s1.screen idx ^^^ 1)) }
  else s

/-- The inner `for (x = 0; x < 8; x++)` loop of `DRW`. -/
def drwRow (Vx yOff p : Nat) (s : Chip8) : Chip8 :=
  (List.range 8).foldl (fun t x => drwStep Vx yOff p t x) s

/-- `DRW`: read `Vx`, `Vy`, `height` once, clear `v[0xF]`, then for each row
`y < height` fetch the sprite byte `p = RAM[I + y]` and run the inner loop. -/
def DRW (i : Nat) (s : Chip8) : Chip8 :=
  let Vx := s.v (VX i)
  let Vy := s.v (VY i)
  let height := LSN i
  let s0 := { s with v := upd s.v 0xF 0 }
  (List.range height).foldl (fun t y => drwRow Vx (y + Vy) (t.RAM (t.I + y)) t) s0

/-- `SKP`: skip next instruction if `keys[v[VX(i)]]` is truthy. -/
def SKP (i : Nat) (s : Chip8) : Chip8 :=
  if s.keys (s.v (VX i)) ≠ 0 then { s with PC := wrap16 (s.PC + 2) } else s

/-- `SKNP`: skip next instruction if `!keys[v[VX(i)]]`. -/
def SKNP (i : Nat) (s : Chip8) : Chip8 :=
  if s.keys (s.v (VX i)) = 0 then { s with PC := wrap16 (s.PC + 2) } else s

/-- `LDD`: `v[VX(i)] = delay_timer`. -/
def LDD (i : Nat) (s : Chip8) : Chip8 :=
  { s with v := upd s.v (VX i) s.delay_timer }

/-- `LDK`: scan `keys[0..15]` for the first truthy key; store its index in
`v[VX(i)]` and return, otherwise `PC -= 2` (16-bit arithmetic) to repeat the
instruction. -/
def LDK (i : Nat) (s : Chip8) : Chip8 :=
  match (List.range NUM_REGS).find? (fun j => s.keys j != 0) with
  | some j => { s with v := upd s.v (VX i) j }
  | none => { s with PC := wrap16 (s.PC + 65534) }

/-- `STD`: `delay_timer = v[VX(i)]`. -/
def STD (i : Nat) (s : Chip8) : Chip8 :=
  { s with delay_timer := s.v (VX i) }

/-- `STS`: `sound_timer = v[VX(i)]`. -/
def STS (i : Nat) (s : Chip8) : Chip8 :=
  { s with sound_timer := s.v (VX i) }

/-- `IINC`: `v[0xF] = I + v[VX(i)] > 0xFFF ? 1 : 0;` (flag written first)
then `I += v[VX(i)]` on the updated register file (16-bit store). -/
def IINC (i : Nat) (s : Chip8) : Chip8 :=
  let s1 := { s with v := upd s.v 0xF (if s.I + s.v (VX i) > 0xFFF then 1 else 0) }
  { s1 with I := wrap16 (s1.I + s1.v (VX i)) }

/-- `LDF`: `I = v[VX(i)] * 5` (no range check on `v[VX(i)]`). -/
def LDF (i : Nat) (s : Chip8) : Chip8 :=
  { s with I := s.v (VX i) * 5 }

/-- `BCD`: `RAM[I] = v/100; RAM[I+1] = (v/10) % 10; RAM[I+2] = (v % 100) % 10`
(no bounds check on `I`). -/
def BCD (i : Nat) (s : Chip8) : Chip8 :=
  { s with RAM := upd (upd (upd s.RAM s.I (s.v (VX i) / 100))
                    (s.I + 1) (s.v (VX i) / 10 % 10))
                    (s.I + 2) (s.v (VX i) % 100 % 10) }

/-- `STA`: `for (j = 0; j <= VX(i); j++) RAM[I + j] = v[j]` (no bounds check). -/
def STA (i : Nat) (s : Chip8) : Chip8 :=
  (List.range (VX i + 1)).foldl
    (fun t j => { t with RAM := upd t.RAM (t.I + j) (t.v j) }) s

/-- `LDA`: `for (j = 0; j <= VX(i); j++) v[j] = RAM[I + j]` (no bounds check). -/
def LDA (i : Nat) (s : Chip8) : Chip8 :=
  (List.range (VX i + 1)).foldl
    (fun t j => { t with v := upd t.v j (t.RAM (t.I + j)) }) s

/-! ### Fetch / decode-execute / reset / program load (CHIP8Emulator.c) -/

/-- `fetch`: `i = INSTR(RAM[PC], RAM[PC + 1]); PC += 2; return i;`. -/
def fetch (s : Chip8) : Nat × Chip8 :=
  (INSTR (s.RAM s.PC) (s.RAM (s.PC + 1)), { s with PC := wrap16 (s.PC + 2) })

/-- `execute`: switch on the most-significant nibble, with the sub-switches on
the least-significant nibble / byte exactly as in the C dispatcher; any
unmatched pattern is the fatal "Unknown instruction" path. -/
def execute (i : Nat) (s : Chip8) : Except Fault Chip8 :=
  let msn := MSN i
  let lsn := LSN i
  if msn = 0x0 then
    if i = 0x00E0 then .ok (CLS s)
    else if i = 0x00EE then RET s
    else .error .UnknownInstruction
  else if msn = 0x1 then .ok (JP i s)
  else if msn = 0x2 then CALL i s
  else if msn = 0x3 then .ok (SE i s)
  else if msn = 0x4 then .ok (SNEI i s)
  else if msn = 0x5 then
    if lsn = 0x0 then .ok (SR i s) else .error .UnknownInstruction
  else if msn = 0x6 then .ok (LDB i s)
  else if msn = 0x7 then .ok (ADDI i s)
  else if msn = 0x8 then
    if lsn = 0x0 then .ok (LDR i s)
    else if lsn = 0x1 then .ok (OR i s)
    else if lsn = 0x2 then .ok (AND i s)
    else if lsn = 0x3 then .ok (XOR i s)
    else if lsn = 0x4 then .ok (ADD i s)
    else if lsn = 0x5 then .ok (SUB i s)
    else if lsn = 0x6 then .ok (SHR i s)
    else if lsn = 0x7 then .ok (SUBN i s)
    else if lsn = 0xE then .ok (SHL i s)
    else .error .UnknownInstruction
  else if msn = 0x9 then
    if lsn = 0x0 then .ok (SNE i s) else .error .UnknownInstruction
  else if msn = 0xA then .ok (LDI i s)
  else if msn = 0xB then .ok (JPR i s)
  else if msn = 0xC then .ok (RND i s)
  else if msn = 0xD then .ok { DRW i s with draw := 1 }
  else if msn = 0xE then
    if BYTE i = 0x9E then .ok (SKP i s)
    else if BYTE i = 0xA1 then .ok (SKNP i s)
    else .error .UnknownInstruction
  else if msn = 0xF then
    if BYTE i = 0x07 then .ok (LDD i s)
    else if BYTE i = 0x0A then .ok (LDK i s)
    else if BYTE i = 0x15 then .ok (STD i s)
    else if BYTE i = 0x18 then .ok (STS i s)
    else if BYTE i = 0x1E then .ok (IINC i s)
    else if BYTE i = 0x29 then .ok (LDF i s)
    else if BYTE i = 0x33 then .ok (BCD i s)
    else if BYTE i = 0x55 then .ok (STA i s)
    else if BYTE i = 0x65 then .ok (LDA i s)
    else .error .UnknownInstruction
  else .error .UnknownInstruction

/-- One `execute(fetch())` iteration of the run loop. -/
def step (s : Chip8) : Except Fault Chip8 :=
  let fs := fetch s
  execute fs.1 fs.2

/-- `n` consecutive non-faulting fetch-decode-execute steps. -/
def stepN : Nat → Chip8 → Except Fault Chip8
  | 0, s => .ok s
  | n + 1, s =>
    match step s with
    | .error e => .error e
    | .ok s1 => stepN n s1

/-- The 80-byte `font_set` array of InstructionSet.c. -/
def font_set : Nat → Nat := fun n =>
  [0xF0, 0x90, 0x90, 0x90, 0xF0,
   0x20, 0x60, 0x20, 0x20, 0x70,
   0xF0, 0x10, 0xF0, 0x80, 0xF0,
   0xF0, 0x10, 0xF0, 0x10, 0xF0,
   0x90, 0x90, 0xF0, 0x10, 0x10,
   0xF0, 0x80, 0xF0, 0x10, 0xF0,
   0xF0, 0x80, 0xF0, 0x90, 0xF0,
   0xF0, 0x10, 0x20, 0x40, 0x40,
   0xF0, 0x90, 0xF0, 0x90, 0xF0,
   0xF0, 0x90, 0xF0, 0x10, 0xF0,
   0xF0, 0x90, 0xF0, 0x90, 0x90,
   0xE0, 0x90, 0xE0, 0x90, 0xE0,
   0xF0, 0x80, 0x80, 0x80, 0xF0,
   0xE0, 0x90, 0x90, 0x90, 0xE0,
   0xF0, 0x80, 0xF0, 0x80, 0xF0,
   0xF0, 0x80, 0xF0, 0x80, 0x80].getD n 0

/-- `initialize`: PC = 0x200, I = 0, sp at `STACK_LOW`, registers/keys/screen
zeroed, RAM cleared (hence the stack slots too) and the font set copied to the
low 80 bytes, timers and draw flag cleared.  The `rand` oracle is a parameter
(the C seeds the host `rand`). -/
def resetState (r : Nat → Nat) : Chip8 where
  RAM := fun n => if n < SIZE_FS then font_set n else 0
  PC := 0x200
  I := 0
  v := fun _ => 0
  sp := STACK_LOW
  stackMem := fun _ => 0
  keys := fun _ => 0
  screen := fun _ => 0
  delay_timer := 0
  sound_timer := 0
  draw := 0
  randSeq := r
  randIdx := 0

/-- Reset VM with an all-zero `rand` oracle. -/
def reset0 : Chip8 := resetState (fun _ => 0)

/-- `load_source` / `fread(RAM + 0x200, 1, 0xCA0, rom)`: copy at most `0xCA0`
ROM bytes into RAM starting at 0x200. -/
def load_source (rom : List Nat) (s : Chip8) : Chip8 :=
  { s with RAM := fun n =>
      if 0x200 ≤ n ∧ n < 0x200 + min rom.length 0xCA0
      then wrap8 (rom.getD (n - 0x200) 0)
      else s.RAM n }

/-- A sequence of consecutive `push` calls. -/
def pushN : List Nat → Chip8 → Except Fault Chip8
  | [], s => .ok s
  | a :: rest, s =>
    match push a s with
    | .error e => .error e
    | .ok s1 => pushN rest s1

/-- `push` with the overflow comparison as literally written in the C:
`sp < (address*) STACK_UP` compares the numeric pointer value of `sp`
(`base + offset`, where `base` is the address `RAM` is loaded at) against
the absolute address 0xEA0. -/
def pushAbs (base addr : Nat) (s : Chip8) : Except Fault Chip8 :=
  if base + s.sp < STACK_UP then .error .StackOverflow
  else .ok { s with stackMem := upd s.stackMem s.sp addr, sp := s.sp - 2 }

/-- A sequence of consecutive `pushAbs` calls. -/
def pushNAbs (base : Nat) : List Nat → Chip8 → Except Fault Chip8
  | [], s => .ok s
  | a :: rest, s =>
    match pushAbs base a s with
    | .error e => .error e
    | .ok s1 => pushNAbs base rest s1

/-! ### Decision predicate for the pixels touched by `DRW` -/

/-- Does some set bit of sprite row `p`, drawn with horizontal origin `Vx` on
screen row `yOff`, land on linear framebuffer offset `off`?  The offset is the
C index expression `x + Vx + yOff * WIDTH`, computed without any wrap. -/
def rowHit (p Vx yOff off : Nat) : Bool :=
  (List.range 8).any (fun x => p &&& (0x80 >>> x) != 0 && off == x + Vx + yOff * WIDTH)

/-- Does some set bit of the `LSN i`-row sprite at `RAM[I..]` land on linear
framebuffer offset `off` when drawn by `DRW i`? -/
def drwHit (i : Nat) (s : Chip8) (off : Nat) : Bool :=
  (List.range (LSN i)).any
    (fun y => rowHit (s.RAM (s.I + y)) (s.v (VX i)) (y + s.v (VY i)) off)

/-! ### Concrete machine states used to settle the claims -/

/-- V0 = 60, a one-row sprite `0x01` at I = 0x300: its set pixel is at
column 7, so the draw origin column 60 pushes it past the right edge. -/
def sC1 : Chip8 :=
  { reset0 with v := upd (fun _ => 0) 0x0 60, I := 0x300, RAM := upd reset0.RAM 0x300 0x01 }

/-- I = 4094 and V0 = 255, so `BCD` writes at 4094, 4095 and 4096. -/
def sC3 : Chip8 := { reset0 with I := 4094, v := upd (fun _ => 0) 0x0 255 }

/-- VF = 1 and V0 = 5, exercising `ADD` with destination register VF. -/
def sC4 : Chip8 := { reset0 with v := upd (upd (fun _ => 0) 0xF 1) 0x0 5 }

/-- V1 = 0xFF and V2 = 1, exercising a carrying `ADD` on ordinary registers. -/
def sC4w : Chip8 := { reset0 with v := upd (upd (fun _ => 0) 0x1 0xFF) 0x2 0x1 }

/-- The machine just after fetching a CALL that was stored at 0x200
(PC already advanced to 0x202). -/
def sC5 : Chip8 := { reset0 with PC := 0x202 }

/-- A machine with one return address (0x200) on the stack. -/
def sC5r : Chip8 := { reset0 with sp := 0xEBC, stackMem := upd (fun _ => 0) 0xEBE 0x200 }

/-- ROM whose first instruction is `CALL 0x300` and whose byte at 0x300 starts
a `RET` instruction. -/
def romC6 : List Nat := [0x23, 0x00] ++ List.replicate 254 0 ++ [0x00, 0xEE]

/-- Reset machine with `romC6` loaded. -/
def sC6 : Chip8 := load_source romC6 reset0

/-- Reset machine whose program is the single wait-for-key instruction
`LD V1,K` (0xF10A). -/
def sC7 : Chip8 := load_source [0xF1, 0x0A] reset0

/-- Same machine with key 5 (and only key 5) pressed. -/
def sC7k : Chip8 := { sC7 with keys := upd (fun _ => 0) 5 1 }

/-- V0 = 16, one past the last hexadecimal digit, for the glyph lookup. -/
def sC8 : Chip8 := { reset0 with v := upd (fun _ => 0) 0x0 16 }

/-- Reset machine whose program is `JP 0x201` (a jump to an odd address). -/
def sC9 : Chip8 := load_source [0x12, 0x01] reset0

/-! ### Helper lemmas -/

theorem upd_same (f : Nat → Nat) (k x : Nat) : upd f k x k = x := by
  simp [upd]

theorem upd_ne (f : Nat → Nat) (k x n : Nat) (h : n ≠ k) : upd f k x n = f n := by
  simp [upd, h]

theorem exceptMap_ok {ε α β : Type} (f : α → β) (a : α) :
    (Except.ok a : Except ε α).map f = .ok (f a) := rfl

theorem foldl_I_of_preserve (f : Chip8 → Nat → Chip8) (hf : ∀ t j, (f t j).I = t.I) :
    ∀ (l : List Nat) (t : Chip8), (l.foldl f t).I = t.I := by
  intro l
  induction l with
  | nil => intro t; rfl
  | cons a as ih => intro t; rw [List.foldl_cons, ih, hf]

theorem STA_I (i : Nat) (s : Chip8) : (STA i s).I = s.I := by
  simp only [STA]
  exact foldl_I_of_preserve
    (fun t j => { t with RAM := upd t.RAM (t.I + j) (t.v j) }) (fun t j => rfl) _ s

theorem LDA_I (i : Nat) (s : Chip8) : (LDA i s).I = s.I := by
  simp only [LDA]
  exact foldl_I_of_preserve
    (fun t j => { t with v := upd t.v j (t.RAM (t.I + j)) }) (fun t j => rfl) _ s

/-! ### Claims -/

/-- Claim C10: the register-block store `LD [I],X` (Fx55) and load `LD X,[I]`
(Fx65) leave the index register I unchanged, for every starting state. -/
theorem sta_lda_preserve_index (s : Chip8) (i : Nat) :
    (MSN i = 0xF → BYTE i = 0x55 → (execute i s).map Chip8.I = .ok s.I) ∧
    (MSN i = 0xF → BYTE i = 0x65 → (execute i s).map Chip8.I = .ok s.I) := by
  constructor
  · intro hm hb
    simp [execute, hm, hb, exceptMap_ok, STA_I]
  · intro hm hb
    simp [execute, hm, hb, exceptMap_ok, LDA_I]

/-- Witness for C10 at concrete instructions 0xF355 and 0xF365. -/
theorem sta_lda_preserve_index_witness :
    (execute 0xF355 reset0).map Chip8.I = .ok reset0.I ∧
    (execute 0xF365 reset0).map Chip8.I = .ok reset0.I :=
  ⟨(sta_lda_preserve_index reset0 0xF355).1 rfl rfl,
   (sta_lda_preserve_index reset0 0xF365).2 rfl rfl⟩

/-- Counterexample to claim C8: with VX = 16 (outside 0..15) the glyph lookup
Fx29 does not fail; it returns normally with I = 16 * 5 = 80. -/
theorem ldf_range_cex :
    (execute 0xF029 sC8).map Chip8.I = .ok 80 ∧ sC8.v (VX 0xF029) = 16 :=
  ⟨rfl, by decide⟩

/-- Claim C8 (amended): the glyph lookup Fx29 performs no range check: for
every state it succeeds and sets I = VX * 5 (no `UnknownOperand` failure
exists); for VX in 0..15 that product is the base address of the 5-byte glyph
sprite for digit VX, which the reset state keeps at addresses d*5..d*5+4. -/
theorem ldf_sets_glyph_base_unchecked (s : Chip8) (i : Nat) (r : Nat → Nat) :
    (MSN i = 0xF → BYTE i = 0x29 → execute i s = .ok { s with I := s.v (VX i) * 5 }) ∧
    (∀ d b, d < 16 → b < 5 → (resetState r).RAM (d * 5 + b) = font_set (d * 5 + b)) := by
  constructor
  · intro hm hb
    simp [execute, hm, hb, LDF]
  · intro d b hd hb
    show (if d * 5 + b < SIZE_FS then font_set (d * 5 + b) else 0) = font_set (d * 5 + b)
    rw [if_pos (by simp [SIZE_FS]; omega)]

/-- Witness for C8's amended theorem at instruction 0xF029 in state `sC8` and
at glyph digit 10, byte 2. -/
theorem ldf_sets_glyph_base_unchecked_witness :
    execute 0xF029 sC8 = .ok { sC8 with I := sC8.v (VX 0xF029) * 5 } ∧
    (resetState (fun _ => 0)).RAM (10 * 5 + 2) = font_set (10 * 5 + 2) :=
  ⟨(ldf_sets_glyph_base_unchecked sC8 0xF029 (fun _ => 0)).1 rfl rfl,
   (ldf_sets_glyph_base_unchecked sC8 0xF029 (fun _ => 0)).2 10 2 (by decide) (by decide)⟩

/-- Counterexample to claim C4: executing ADD with X = 0xF (i = 0x8F04, so
VX = VF, VY = V0) on VF = 1, V0 = 5 leaves VF = 5, not
(old VF + old V0) mod 256 = 6: the flag write happens before the addition and
is then clobbered, so the claimed equations fail when X = 0xF. -/
theorem add_flag_visible_cex :
    ¬ ((ADD 0x8F04 sC4).v (VX 0x8F04)
        = (sC4.v (VX 0x8F04) + sC4.v (VY 0x8F04)) % 256) := by
  decide

/-- Claim C4 (amended): for register indices X ≠ 0xF and Y ≠ 0xF and all byte
register values, ADD X,Y sets VX to (VX + VY) mod 256 and VF to 1 iff the
unsigned sum exceeds 255 (0 otherwise); when X = 0xF or Y = 0xF the flag is
written before the addition, so the claimed equations can fail there. -/
theorem add_carry_nonflag_regs (s : Chip8) (i : Nat)
    (hx : VX i ≠ 0xF) (hy : VY i ≠ 0xF)
    (hbx : s.v (VX i) < 256) (hby : s.v (VY i) < 256) :
    (ADD i s).v (VX i) = (s.v (VX i) + s.v (VY i)) % 256 ∧
    (ADD i s).v 0xF = if s.v (VX i) + s.v (VY i) > 255 then 1 else 0 := by
  have hxF : (0xF : Nat) ≠ VX i := Ne.symm hx
  dsimp only [ADD]
  constructor
  · rw [upd_same, upd_ne _ _ _ _ hx, upd_ne _ _ _ _ hy, wrap8]
  · rw [upd_ne _ _ _ _ hxF, upd_same]
    split_ifs <;> omega

/-- Witness for C4's amended theorem: ADD V1,V2 with V1 = 0xFF, V2 = 1. -/
theorem add_carry_nonflag_regs_witness :
    (ADD 0x8124 sC4w).v (VX 0x8124)
      = (sC4w.v (VX 0x8124) + sC4w.v (VY 0x8124)) % 256 ∧
    (ADD 0x8124 sC4w).v 0xF
      = if sC4w.v (VX 0x8124) + sC4w.v (VY 0x8124) > 255 then 1 else 0 :=
  add_carry_nonflag_regs sC4w 0x8124 (by decide) (by decide) (by decide) (by decide)

/-- Counterexample to claim C5: a CALL 0x300 executed at address 0x200 (so
with post-fetch PC = 0x202) stores 0x200 — the address of the CALL
instruction itself, not the resume address 0x202 — and RET sets PC to the
popped address plus 2, not to the popped address itself. -/
theorem call_return_address_cex :
    (CALL 0x2300 sC5).map (fun t => t.stackMem 0xEBE) = .ok 0x200 ∧
    (0x200 : Nat) ≠ sC5.PC ∧
    sC5r.stackMem (sC5r.sp + 2) = 0x200 ∧
    (RET sC5r).map Chip8.PC = .ok 0x202 :=
  ⟨rfl, by decide, by decide, rfl⟩

/-- Claim C5 (amended): CALL pushes the address of the CALL instruction
itself (the already-advanced PC minus 2, i.e. the resume address minus 2)
and jumps to the 12-bit operand; RET sets PC to the popped address plus 2.
The +2 adjustment lives in RET, not in the stored address. -/
theorem call_ret_adjusted (s : Chip8) :
    (∀ i, ¬ s.sp < STACK_UP → 2 ≤ s.PC → s.PC < 65536 →
      CALL i s = .ok { s with stackMem := upd s.stackMem s.sp (s.PC - 2),
                              sp := s.sp - 2, PC := ADDR i }) ∧
    (s.sp ≠ STACK_LOW → s.stackMem (s.sp + 2) + 2 < 65536 →
      RET s = .ok { s with sp := s.sp + 2, PC := s.stackMem (s.sp + 2) + 2 }) := by
  constructor
  · intro i hsp h2 h65
    have harg : wrap16 (s.PC + 65534) = s.PC - 2 := by
      simp only [wrap16]; omega
    simp [CALL, push, hsp, harg]
  · intro hsp hlt
    have harg : wrap16 (s.stackMem (s.sp + 2) + 2) = s.stackMem (s.sp + 2) + 2 := by
      simp only [wrap16]; omega
    simp [RET, pop, hsp, harg]

/-- Witness for C5's amended theorem: the CALL part at `sC5`, the RET part at
`sC5r`. -/
theorem call_ret_adjusted_witness :
    CALL 0x2300 sC5 = .ok { sC5 with stackMem := upd sC5.stackMem sC5.sp (sC5.PC - 2),
                                     sp := sC5.sp - 2, PC := ADDR 0x2300 } ∧
    RET sC5r = .ok { sC5r with sp := sC5r.sp + 2, PC := sC5r.stackMem (sC5r.sp + 2) + 2 } :=
  ⟨(call_ret_adjusted sC5).1 0x2300 (by decide) (by decide) (by decide),
   (call_ret_adjusted sC5r).2 (by decide) (by decide)⟩

/-- Counterexample to claim C3: with I = 4094 the BCD store (Fx33) touches
address I + 2 = 4096, outside 0..4095, yet execution succeeds (writing the
ones digit there) instead of failing with an OutOfBounds error — indeed no
OutOfBounds fault exists in the emulator. -/
theorem memory_oob_cex :
    (execute 0xF033 sC3).map (fun t => t.RAM 4096) = .ok 5 ∧
    sC3.I + 2 = 4096 :=
  ⟨rfl, by decide⟩

/-- Claim C3 (amended): the Executor performs its memory accesses (sprite-row
reads in DRW, BCD writes at I..I+2, register-block stores/loads at I..I+X)
with no address validation at all: for every state, including states whose
accessed addresses lie outside 0..4095, these instructions complete without
any fault, and the BCD ones digit lands at the raw address I + 2. -/
theorem executor_memory_unchecked (s : Chip8) (i : Nat) :
    (MSN i = 0xD → execute i s = .ok { DRW i s with draw := 1 }) ∧
    (MSN i = 0xF → BYTE i = 0x33 →
      execute i s = .ok (BCD i s) ∧ (BCD i s).RAM (s.I + 2) = s.v (VX i) % 100 % 10) ∧
    (MSN i = 0xF → BYTE i = 0x55 → execute i s = .ok (STA i s)) ∧
    (MSN i = 0xF → BYTE i = 0x65 → execute i s = .ok (LDA i s)) := by
  refine ⟨fun hm => ?_, fun hm hb => ⟨?_, ?_⟩, fun hm hb => ?_, fun hm hb => ?_⟩
  · simp [execute, hm]
  · simp [execute, hm, hb]
  · show upd _ (s.I + 2) _ (s.I + 2) = _
    rw [upd_same]
  · simp [execute, hm, hb]
  · simp [execute, hm, hb]

/-- Witness for C3's amended theorem at concrete instructions 0xD011, 0xF033,
0xF355, 0xF365 on the out-of-range states `sC3` and `sC1`. -/
theorem executor_memory_unchecked_witness :
    execute 0xD011 sC1 = .ok { DRW 0xD011 sC1 with draw := 1 } ∧
    (execute 0xF033 sC3 = .ok (BCD 0xF033 sC3) ∧
      (BCD 0xF033 sC3).RAM (sC3.I + 2) = sC3.v (VX 0xF033) % 100 % 10) ∧
    execute 0xF355 sC3 = .ok (STA 0xF355 sC3) ∧
    execute 0xF365 sC3 = .ok (LDA 0xF365 sC3) :=
  ⟨(executor_memory_unchecked sC1 0xD011).1 rfl,
   (executor_memory_unchecked sC3 0xF033).2.1 rfl rfl,
   (executor_memory_unchecked sC3 0xF355).2.2.1 rfl rfl,
   (executor_memory_unchecked sC3 0xF365).2.2.2 rfl rfl⟩

/-- Counterexample to claim C9: from the reset VM with the two-byte program
`JP 0x201` loaded, one non-faulting fetch-decode-execute step reaches
PC = 0x201, which is odd — the claimed evenness/range invariant does not hold
in all non-faulting reachable states. -/
theorem pc_invariant_cex :
    (stepN 1 sC9).map Chip8.PC = .ok 0x201 ∧ (0x201 : Nat) % 2 = 1 :=
  ⟨rfl, by decide⟩

/-- Claim C9 (amended): the reset VM starts with PC = 0x200, which is even
and within [0x200, 4094], but execution does not preserve that invariant:
a JP (msn 0x1) is non-faulting and sets PC to the raw 12-bit operand with no
evenness or range check, so odd or low targets are reachable. -/
theorem pc_reset_even_not_preserved (r : Nat → Nat) :
    (resetState r).PC = 0x200 ∧ (resetState r).PC % 2 = 0 ∧
    0x200 ≤ (resetState r).PC ∧ (resetState r).PC ≤ 4094 ∧
    (∀ (s : Chip8) (i : Nat), MSN i = 0x1 → execute i s = .ok { s with PC := ADDR i }) := by
  have hPC : (resetState r).PC = 0x200 := rfl
  refine ⟨hPC, ?_, ?_, ?_, fun s i hm => ?_⟩
  · rw [hPC]
  · rw [hPC]
  · rw [hPC]; omega
  · simp [execute, hm, JP]

/-- Witness for C9's amended theorem: JP 0x201 at the loaded reset state. -/
theorem pc_reset_even_not_preserved_witness :
    execute 0x1201 sC9 = .ok { sC9 with PC := ADDR 0x1201 } :=
  (pc_reset_even_not_preserved (fun _ => 0)).2.2.2.2 sC9 0x1201 rfl

/-- Counterexample to claim C1: drawing the 1-row sprite 0x01 (set pixel at
column 7) with origin (V0, V1) = (60, 0) must, per the claim, toggle the
framebuffer at wrapped coordinates ((60+7) mod 64, 0) = offset 3; the code
leaves offset 3 untouched and instead toggles the unwrapped linear offset
7 + 60 + 0*64 = 67. -/
theorem drw_wrapped_blit_cex :
    sC1.v (VX 0xD011) = 60 ∧ sC1.v (VY 0xD011) = 0 ∧ LSN 0xD011 = 1 ∧
    sC1.RAM sC1.I = 0x01 ∧
    (DRW 0xD011 sC1).screen ((60 + 7) % 64 + ((0 + 0) % 32) * 64) = 0 ∧
    (DRW 0xD011 sC1).screen (7 + 60 + 0 * 64) = 1 := by
  decide

theorem pushN_ok_aux (l : List Nat) : ∀ (s : Chip8) (k : Nat),
    s.sp = STACK_LOW - 2 * k → k + l.length ≤ 16 →
    ∃ s1, pushN l s = .ok s1 ∧ s1.sp = STACK_LOW - 2 * (k + l.length) := by
  induction l with
  | nil =>
    intro s k hsp hk
    exact ⟨s, rfl, by simpa using hsp⟩
  | cons a rest ih =>
    intro s k hsp hk
    simp only [List.length_cons] at hk
    simp only [STACK_LOW] at hsp
    have hns : ¬ s.sp < STACK_UP := by
      simp only [STACK_UP]; omega
    have hstep : push a s = .ok { s with stackMem := upd s.stackMem s.sp a, sp := s.sp - 2 } := by
      simp [push, hns]
    obtain ⟨s1, h1, h2⟩ := ih { s with stackMem := upd s.stackMem s.sp a, sp := s.sp - 2 }
      (k + 1) (by show s.sp - 2 = STACK_LOW - 2 * (k + 1); simp only [STACK_LOW]; omega)
      (by omega)
    refine ⟨s1, ?_, ?_⟩
    · simp only [pushN, hstep]
      exact h1
    · rw [h2]
      simp only [STACK_LOW, List.length_cons]
      omega

theorem pushN_overflow_aux (l : List Nat) : ∀ (s : Chip8) (k : Nat),
    s.sp = STACK_LOW - 2 * k → k + l.length = 17 → k ≤ 16 →
    pushN l s = .error .StackOverflow := by
  induction l with
  | nil =>
    intro s k _ hk hk16
    simp only [List.length_nil, Nat.add_zero] at hk
    exact absurd hk (by omega)
  | cons a rest ih =>
    intro s k hsp hk hk16
    simp only [List.length_cons] at hk
    simp only [STACK_LOW] at hsp
    by_cases hk15 : k ≤ 15
    · have hns : ¬ s.sp < STACK_UP := by
        simp only [STACK_UP]; omega
      have hstep : push a s = .ok { s with stackMem := upd s.stackMem s.sp a, sp := s.sp - 2 } := by
        simp [push, hns]
      have hrec := ih { s with stackMem := upd s.stackMem s.sp a, sp := s.sp - 2 }
        (k + 1) (by show s.sp - 2 = STACK_LOW - 2 * (k + 1); simp only [STACK_LOW]; omega)
        (by omega) (by omega)
      simp only [pushN, hstep]
      exact hrec
    · have hlt : s.sp < STACK_UP := by
        simp only [STACK_UP]; omega
      simp [pushN, push, hlt]

/-- Under the intended RAM-relative bound check (the contract stated in
InstructionSet.h and the comparison form used by `print_stack`), 16
consecutive pushes from the reset VM succeed and any 17th fails with
StackOverflow, returning the fault instead of writing the address. -/
theorem stack_push_16_then_overflow (addrs : List Nat) :
    (addrs.length = 16 → ∃ s1, pushN addrs reset0 = .ok s1) ∧
    (addrs.length = 17 → pushN addrs reset0 = .error .StackOverflow) := by
  have hsp : reset0.sp = STACK_LOW - 2 * 0 := rfl
  constructor
  · intro h16
    obtain ⟨s1, h1, _⟩ := pushN_ok_aux addrs reset0 0 hsp (by omega)
    exact ⟨s1, h1⟩
  · intro h17
    exact pushN_overflow_aux addrs reset0 0 hsp (by omega) (by omega)

/-- The 16-then-overflow behaviour at 16 and 17 concrete pushes of 0x200. -/
theorem stack_push_16_then_overflow_witness :
    (∃ s1, pushN (List.replicate 16 0x200) reset0 = .ok s1) ∧
    pushN (List.replicate 17 0x200) reset0 = .error .StackOverflow :=
  ⟨(stack_push_16_then_overflow (List.replicate 16 0x200)).1 (by simp),
   (stack_push_16_then_overflow (List.replicate 17 0x200)).2 (by simp)⟩

/-- Claim C6: when the instruction fetched at PC is a CALL (msn 0x2), the
push does not overflow, and the two bytes at the call target N form the RET
instruction 0x00EE, then two fetch-decode-execute steps later the program
counter is PC + 2, the address of the instruction immediately following the
original CALL. -/
theorem call_then_ret_resumes (s : Chip8)
    (hm : MSN (INSTR (s.RAM s.PC) (s.RAM (s.PC + 1))) = 0x2)
    (hsp : ¬ s.sp < STACK_UP) (hsl : s.sp ≤ STACK_LOW)
    (hpc : s.PC + 2 < 65536)
    (hr0 : s.RAM (ADDR (INSTR (s.RAM s.PC) (s.RAM (s.PC + 1)))) = 0x00)
    (hr1 : s.RAM (ADDR (INSTR (s.RAM s.PC) (s.RAM (s.PC + 1))) + 1) = 0xEE) :
    (stepN 2 s).map Chip8.PC = .ok (s.PC + 2) := by
  have hspge : 0xEA0 ≤ s.sp := by simpa [STACK_UP] using hsp
  have hsl2 : s.sp ≤ 0xEBE := by simpa [STACK_LOW] using hsl
  have hw2 : wrap16 (s.PC + 2) = s.PC + 2 := by simp only [wrap16]; omega
  have h1 : step s = .ok { s with PC := ADDR (INSTR (s.RAM s.PC) (s.RAM (s.PC + 1))),
                                  sp := s.sp - 2,
                                  stackMem := upd s.stackMem s.sp s.PC } := by
    have hpush : wrap16 (wrap16 (s.PC + 2) + 65534) = s.PC := by
      simp only [wrap16]; omega
    simp [step, fetch, execute, hm, CALL, push, hsp, hpush]
  have hI00EE : INSTR 0x00 0xEE = 0xEE := rfl
  have hexEE : ∀ t : Chip8, execute 0xEE t = RET t := fun t => rfl
  have hne : ¬ (s.sp - 2 = STACK_LOW) := by
    simp only [STACK_LOW]; omega
  have heq : s.sp - 2 + 2 = s.sp := by omega
  have h2 : step { s with PC := ADDR (INSTR (s.RAM s.PC) (s.RAM (s.PC + 1))),
                          sp := s.sp - 2,
                          stackMem := upd s.stackMem s.sp s.PC }
      = .ok { s with PC := s.PC + 2, sp := s.sp,
                     stackMem := upd s.stackMem s.sp s.PC } := by
    simp [step, fetch, hr0, hr1, hI00EE, hexEE, RET, pop, hne, heq, upd_same, hw2]
  simp [stepN, h1, h2, exceptMap_ok]

set_option maxRecDepth 40000 in
/-- Witness for C6: `romC6` starts with CALL 0x300 and holds RET at 0x300;
two steps later PC = 0x202. -/
theorem call_then_ret_resumes_witness :
    (stepN 2 sC6).map Chip8.PC = .ok (sC6.PC + 2) :=
  call_then_ret_resumes sC6 (by decide) (by decide) (by decide) (by decide)
    (by decide) (by decide)

theorem find_range_first (p : Nat → Bool) : ∀ (n k : Nat), k < n →
    (∀ j, j < k → p j = false) → p k = true →
    (List.range n).find? p = some k := by
  intro n
  induction n with
  | zero => intro k hk _ _; exact absurd hk (Nat.not_lt_zero k)
  | succ m ih =>
    intro k hk hlow hp
    rw [List.range_succ, List.find?_append]
    by_cases hkm : k < m
    · rw [ih k hkm hlow hp]; rfl
    · have hkm2 : k = m := by omega
      subst hkm2
      have hnone : (List.range k).find? p = none := by
        rw [List.find?_eq_none]
        intro x hx
        simp [hlow x (List.mem_range.mp hx)]
      rw [hnone]
      simp [List.find?_cons, hp]

/-- Claim C7: with the wait-for-key instruction Fx0A fetched at PC, a step in
which no key is pressed leaves PC unchanged (the VM makes no progress), and a
step in which key k is pressed (with no lower-numbered key pressed) stores k
into VX and advances PC past the instruction, so normal fetch resumes on the
following step. -/
theorem key_wait_step (s : Chip8)
    (hm : MSN (INSTR (s.RAM s.PC) (s.RAM (s.PC + 1))) = 0xF)
    (hb : BYTE (INSTR (s.RAM s.PC) (s.RAM (s.PC + 1))) = 0x0A)
    (hpc : s.PC + 2 < 65536) :
    ((∀ j, j < 16 → s.keys j = 0) → (step s).map Chip8.PC = .ok s.PC) ∧
    (∀ k, k < 16 → s.keys k ≠ 0 → (∀ j, j < k → s.keys j = 0) →
      (step s).map
          (fun t => (t.v (VX (INSTR (s.RAM s.PC) (s.RAM (s.PC + 1)))), t.PC))
        = .ok (k, s.PC + 2)) := by
  have hw2 : wrap16 (s.PC + 2) = s.PC + 2 := by simp only [wrap16]; omega
  constructor
  · intro hnokey
    have hfind : (List.range NUM_REGS).find? (fun j => s.keys j != 0) = none := by
      rw [List.find?_eq_none]
      intro x hx
      have hx0 := hnokey x (by simpa [NUM_REGS] using List.mem_range.mp hx)
      simp [hx0]
    have hroll : wrap16 (s.PC + 2 + 65534) = s.PC := by simp only [wrap16]; omega
    simp [step, fetch, execute, hm, hb, LDK, hfind, hw2, hroll, exceptMap_ok]
  · intro k hk hkp hlow
    have hfind : (List.range NUM_REGS).find? (fun j => s.keys j != 0) = some k := by
      apply find_range_first
      · simpa [NUM_REGS] using hk
      · intro j hj; simp [hlow j hj]
      · simpa using hkp
    simp [step, fetch, execute, hm, hb, LDK, hfind, hw2, upd_same, exceptMap_ok]

/-- Witness for C7: the machine `sC7` (program 0xF10A, no key pressed) makes
no progress, and `sC7k` (same program, exactly key 5 pressed) stores 5 into
V1 and advances PC by 2. -/
theorem key_wait_step_witness :
    (step sC7).map Chip8.PC = .ok sC7.PC ∧
    (step sC7k).map
        (fun t => (t.v (VX (INSTR (sC7k.RAM sC7k.PC) (sC7k.RAM (sC7k.PC + 1)))), t.PC))
      = .ok (5, sC7k.PC + 2) :=
  ⟨(key_wait_step sC7 (by decide) (by decide) (by decide)).1 (by decide),
   (key_wait_step sC7k (by decide) (by decide) (by decide)).2 5 (by decide)
     (by decide) (by decide)⟩

theorem drwStep_RAM (Vx yOff p x : Nat) (t : Chip8) :
    (drwStep Vx yOff p t x).RAM = t.RAM := by
  unfold drwStep
  by_cases h1 : p &&& (0x80 >>> x) ≠ 0
  · simp only [if_pos h1]
    by_cases h2 : t.screen (x + Vx + yOff * WIDTH) ≠ 0 <;> simp [h2]
  · simp [h1]

theorem drwStep_I (Vx yOff p x : Nat) (t : Chip8) :
    (drwStep Vx yOff p t x).I = t.I := by
  unfold drwStep
  by_cases h1 : p &&& (0x80 >>> x) ≠ 0
  · simp only [if_pos h1]
    by_cases h2 : t.screen (x + Vx + yOff * WIDTH) ≠ 0 <;> simp [h2]
  · simp [h1]

theorem drwRow_RAM (Vx yOff p : Nat) (t : Chip8) : (drwRow Vx yOff p t).RAM = t.RAM := by
  unfold drwRow
  generalize List.range 8 = xs
  induction xs generalizing t with
  | nil => rfl
  | cons a as ih => rw [List.foldl_cons, ih, drwStep_RAM]

theorem drwRow_I (Vx yOff p : Nat) (t : Chip8) : (drwRow Vx yOff p t).I = t.I := by
  unfold drwRow
  generalize List.range 8 = xs
  induction xs generalizing t with
  | nil => rfl
  | cons a as ih => rw [List.foldl_cons, ih, drwStep_I]

theorem drwStep_screen (Vx yOff p x : Nat) (t : Chip8) (off : Nat) :
    (drwStep Vx yOff p t x).screen off =
      if p &&& (0x80 >>> x) != 0 && (off == x + Vx + yOff * WIDTH)
      then wrap8 (t.screen off ^^^ 1) else t.screen off := by
  simp only [drwStep]
  by_cases h1 : p &&& (0x80 >>> x) ≠ 0 <;>
    by_cases h2 : off = x + Vx + yOff * WIDTH <;>
    by_cases h3 : t.screen (x + Vx + yOff * WIDTH) ≠ 0 <;>
    simp [h1, h2, h3, upd]

theorem foldl_drwStep_screen (Vx yOff p off : Nat) : ∀ (xs : List Nat), xs.Nodup →
    ∀ t : Chip8,
    (xs.foldl (fun u x => drwStep Vx yOff p u x) t).screen off =
      if xs.any (fun x => p &&& (0x80 >>> x) != 0 && (off == x + Vx + yOff * WIDTH))
      then wrap8 (t.screen off ^^^ 1) else t.screen off := by
  intro xs
  induction xs with
  | nil => intro _ t; simp
  | cons a as ih =>
    intro hnd t
    rw [List.nodup_cons] at hnd
    obtain ⟨hna, hndas⟩ := hnd
    rw [List.foldl_cons, List.any_cons]
    by_cases hcond : (p &&& (0x80 >>> a) != 0 && (off == a + Vx + yOff * WIDTH)) = true
    · have hstep : (drwStep Vx yOff p t a).screen off = wrap8 (t.screen off ^^^ 1) := by
        rw [drwStep_screen, if_pos hcond]
      have hasfalse : as.any
          (fun x => p &&& (0x80 >>> x) != 0 && (off == x + Vx + yOff * WIDTH)) = false := by
        rw [List.any_eq_false]
        intro x hx hco
        simp only [Bool.and_eq_true, beq_iff_eq, bne_iff_ne] at hcond hco
        have hxa : x = a := by omega
        exact hna (hxa ▸ hx)
      rw [ih hndas (drwStep Vx yOff p t a), hasfalse, hstep]
      simp [hcond]
    · have hcondf : (p &&& (0x80 >>> a) != 0 && (off == a + Vx + yOff * WIDTH)) = false :=
        eq_false_of_ne_true hcond
      have hstep : (drwStep Vx yOff p t a).screen off = t.screen off := by
        rw [drwStep_screen, if_neg hcond]
      rw [ih hndas (drwStep Vx yOff p t a), hstep, hcondf]
      simp

theorem drwRow_screen (Vx yOff p : Nat) (t : Chip8) (off : Nat) :
    (drwRow Vx yOff p t).screen off =
      if rowHit p Vx yOff off then wrap8 (t.screen off ^^^ 1) else t.screen off := by
  unfold drwRow rowHit
  exact foldl_drwStep_screen Vx yOff p off (List.range 8) (List.nodup_range 8) t

theorem rowHit_off (p Vx yOff off : Nat) (h : rowHit p Vx yOff off = true) :
    ∃ x, x < 8 ∧ off = x + Vx + yOff * WIDTH := by
  unfold rowHit at h
  rw [List.any_eq_true] at h
  obtain ⟨x, hx, hp⟩ := h
  simp only [Bool.and_eq_true, beq_iff_eq] at hp
  exact ⟨x, List.mem_range.mp hx, hp.2⟩

theorem foldl_drwRow_screen (Vx Vy : Nat) (R : Nat → Nat) (Iv off : Nat) :
    ∀ (ys : List Nat), ys.Nodup → ∀ t : Chip8, t.RAM = R → t.I = Iv →
    (ys.foldl (fun u y => drwRow Vx (y + Vy) (u.RAM (u.I + y)) u) t).screen off =
      if ys.any (fun y => rowHit (R (Iv + y)) Vx (y + Vy) off)
      then wrap8 (t.screen off ^^^ 1) else t.screen off := by
  intro ys
  induction ys with
  | nil => intro _ t _ _; simp
  | cons y ysr ih =>
    intro hnd t hR hI
    rw [List.nodup_cons] at hnd
    obtain ⟨hny, hndr⟩ := hnd
    have hbody : t.RAM (t.I + y) = R (Iv + y) := by rw [hR, hI]
    rw [List.foldl_cons, List.any_cons, hbody]
    have ht1RAM : (drwRow Vx (y + Vy) (R (Iv + y)) t).RAM = R := by
      rw [drwRow_RAM, hR]
    have ht1I : (drwRow Vx (y + Vy) (R (Iv + y)) t).I = Iv := by
      rw [drwRow_I, hI]
    have ht1screen := drwRow_screen Vx (y + Vy) (R (Iv + y)) t off
    by_cases hrh : rowHit (R (Iv + y)) Vx (y + Vy) off = true
    · have hothers : ysr.any (fun y2 => rowHit (R (Iv + y2)) Vx (y2 + Vy) off) = false := by
        rw [List.any_eq_false]
        intro y2 hy2 hco
        obtain ⟨x1, hx1, he1⟩ := rowHit_off _ _ _ _ hrh
        obtain ⟨x2, hx2, he2⟩ := rowHit_off _ _ _ _ hco
        have hyy : y2 = y := by simp only [WIDTH] at he1 he2; omega
        exact hny (hyy ▸ hy2)
      rw [ih hndr (drwRow Vx (y + Vy) (R (Iv + y)) t) ht1RAM ht1I, hothers,
        ht1screen, if_pos hrh]
      simp [hrh]
    · have hrhf : rowHit (R (Iv + y)) Vx (y + Vy) off = false := eq_false_of_ne_true hrh
      have ht1s : (drwRow Vx (y + Vy) (R (Iv + y)) t).screen off = t.screen off := by
        rw [ht1screen, if_neg hrh]
      rw [ih hndr (drwRow Vx (y + Vy) (R (Iv + y)) t) ht1RAM ht1I, ht1s, hrhf]
      simp

/-- Claim C1 (amended): for every execution of DRW X,Y,n, the framebuffer
byte at linear offset `off` is toggled exactly when some set sprite bit at
(column x < 8, row y < n) satisfies `off = x + VX + (y + VY) * 64` — the C
index expression, computed with no modulo: sprite pixels past the 64×32 grid
are blitted at out-of-range linear offsets rather than wrapped, and every
other offset is left unchanged. -/
theorem drw_linear_blit (s : Chip8) (i off : Nat) :
    (DRW i s).screen off =
      if drwHit i s off then wrap8 (s.screen off ^^^ 1) else s.screen off := by
  simp only [DRW, drwHit]
  exact foldl_drwRow_screen (s.v (VX i)) (s.v (VY i)) s.RAM s.I off
    (List.range (LSN i)) (List.nodup_range _) { s with v := upd s.v 0xF 0 } rfl rfl

/-- Claim C2 (code bug): with the overflow comparison as literally written —
the numeric value of `sp` (RAM load address `base` + offset) against the
absolute address 0xEA0 — the check can never fire once RAM is loaded at or
above address 0xEA0 (every realistic platform), so no push, the 17th
included, ever fails with StackOverflow: it silently writes below the stack
region instead.  The claimed 16-then-overflow behaviour is what the intended
RAM-relative comparison yields (`stack_push_16_then_overflow` below). -/
theorem stack_overflow_check_never_fires (base : Nat) (hb : STACK_UP ≤ base)
    (addrs : List Nat) : ∀ s : Chip8, ∃ s1, pushNAbs base addrs s = .ok s1 := by
  induction addrs with
  | nil => intro s; exact ⟨s, rfl⟩
  | cons a rest ih =>
    intro s
    have hns : ¬ base + s.sp < STACK_UP := by omega
    have hstep : pushAbs base a s
        = .ok { s with stackMem := upd s.stackMem s.sp a, sp := s.sp - 2 } := by
      simp [pushAbs, hns]
    obtain ⟨s1, h1⟩ := ih { s with stackMem := upd s.stackMem s.sp a, sp := s.sp - 2 }
    exact ⟨s1, by simp only [pushNAbs, hstep]; exact h1⟩

/-- Witness for the C2 code-bug theorem: 17 pushes from reset with RAM loaded
at 0x601000 all succeed — the overflow check never fires. -/
theorem stack_overflow_check_never_fires_witness :
    STACK_UP ≤ 0x601000 ∧
    ∃ s1, pushNAbs 0x601000 (List.replicate 17 0x200) reset0 = .ok s1 :=
  ⟨by decide,
   stack_overflow_check_never_fires 0x601000 (by decide) (List.replicate 17 0x200) reset0⟩

end Chip8Emu
